import Mathlib

/-!
# Verification of the VOD recommendation pipeline (`src/dags/vod_rec.py`)

A shallow embedding of the core of the `vod_rec` Airflow DAG:

* the interaction extractor's watch-ratio computation
  (`data_preprocessing`, lines 56-66),
* the train/test split (`data_preprocessing`, lines 69-73, using
  sklearn's `train_test_split` with `test_size=0.25`),
* the `SVDRecommendationModel` class (lines 82-141): the pivoted score
  matrix, the surprise `SVD` prediction rule, `recommend`,
  `precision_recall_at_k`, `evaluate` and `calculate_rmse`.

Pandas/NumPy tables are embedded as lists of records whose positional
index plays the role of the pandas row label (the dataframe has a fresh
`RangeIndex` at the split point, produced by `reset_index(drop=True)`
followed by `merge`).  Ratings are rationals; a missing rating (`NaN`
in the dataframe) is `Option.none`.  Where the float `NaN`/`Infinity`
values themselves matter (the unguarded ratio division), an explicit
IEEE-style value type is used.
-/

namespace VodRec

/-- An interaction row of the `rating` dataframe built in
`data_preprocessing`: a `(subsr_id, program_id)` pair with an optional
`use_tms_ratio` (missing = pandas `NaN`). -/
structure Row where
  subsr : ℕ
  prog : ℕ
  ratio : Option ℚ
deriving DecidableEq, Repr

/-- Errors raised by the embedded pipeline.  The Python code signals
them as exceptions (`KeyError` from `.loc`, `ValueError` from sklearn's
`train_test_split` and from surprise's `accuracy.rmse`); NumPy's
`np.mean([])` silently yields `NaN`, modelled as `nanEmptyMean`. -/
inductive Err where
  /-- pandas `.loc[subsr_id]` with a label absent from the index. -/
  | keyError
  /-- sklearn `train_test_split`: the resulting train set would be empty. -/
  | emptyTrainSplit
  /-- surprise `accuracy.rmse` on an empty prediction list. -/
  | emptyPredictions
  /-- `np.mean` of an empty list (a `NaN` result, not a Python error). -/
  | nanEmptyMean
deriving DecidableEq, Repr

/-! ## Interaction extractor: the unguarded ratio division (line 61)

`vod_log['use_tms_ratio'] = vod_log['use_tms'] / vod_log['disp_rtm_sec']`
is IEEE-754 float division: a zero denominator yields `±Infinity` or
`NaN`, never an exception. -/

/-- A raw watch-event row of `vod_log` (the columns the ratio
computation reads, after the `e_bool == 0` filter columns). -/
structure VodRow where
  subsr : ℕ
  prog : ℕ
  use_tms : ℚ
  disp_rtm_sec : ℚ
  e_bool : ℕ
deriving DecidableEq, Repr

/-- An IEEE-754-style value: finite, `±Infinity`, or `NaN`.  Exactly
the outcomes of a float division of finite operands. -/
inductive FVal where
  | fin (q : ℚ)
  | posInf
  | negInf
  | nan
deriving DecidableEq, Repr

/-- IEEE-754 division of finite floats: `a / 0` is `NaN` when `a = 0`
and `±Infinity` otherwise; no error is ever raised. -/
def fdiv (a b : ℚ) : FVal :=
  if b = 0 then
    if a = 0 then FVal.nan else if 0 < a then FVal.posInf else FVal.negInf
  else FVal.fin (a / b)

/-- Line 56 then line 61 of `data_preprocessing`: keep the rows with
`e_bool == 0` and compute the per-row `use_tms_ratio` column by float
division `use_tms / disp_rtm_sec`. -/
def use_tms_ratio_col (vod_log : List VodRow) : List FVal :=
  ((vod_log.filter (fun r => r.e_bool = 0)).map
    (fun r => fdiv r.use_tms r.disp_rtm_sec))

/-! ## Split generator (`data_preprocessing`, lines 69-73)

```python
train, test = train_test_split(rating.dropna(), test_size=0.25, random_state=0)
train = rating.copy()
train.loc[test.index, 'use_tms_ratio'] = np.nan
```

sklearn draws `ceil(0.25 * n)` of the `n` rated rows into `test` using
a shuffle seeded by `random_state=0`, and raises `ValueError` when the
remaining train part would be empty (`n - ceil(0.25 * n) = 0`, i.e.
`n < 2`).  The seeded shuffle itself is not re-implemented: the list of
selected row labels is an explicit parameter `sel`, and the theorems
below hold for every selection drawn from the rated labels, hence in
particular for the one the seeded generator produces. -/

/-- The row labels of `rating.dropna()`: positions of the rows whose
rating is present. -/
def ratedIdx (rating : List Row) : List ℕ :=
  (List.range rating.length).filter
    (fun i => ((rating.get? i).bind Row.ratio).isSome)

/-- Overwrite a row's rating with `NaN` (`train.loc[i, 'use_tms_ratio'] = np.nan`). -/
def maskRow (r : Row) : Row :=
  { r with ratio := none }

/-- `train.loc[test.index, 'use_tms_ratio'] = np.nan`: mask every row
whose label lies in `sel`.  The auxiliary index `i` is the label of the
head row. -/
def maskFrom (sel : List ℕ) (i : ℕ) : List Row → List Row
  | [] => []
  | r :: rs => (if i ∈ sel then maskRow r else r) :: maskFrom sel (i + 1) rs

/-- `ceil(0.25 * n)`: the test-set size sklearn computes for
`test_size=0.25`. -/
def n_test (n : ℕ) : ℕ := (n + 3) / 4

/-- Lines 69-73 of `data_preprocessing`.  `sel` is the list of row
labels (drawn from `ratedIdx rating` by the seeded shuffle) that form
the test set.  Returns `(train, test)`: `train` is the full `rating`
table with the selected rows' ratings masked, `test` the selected rows
with their original ratings. -/
def data_split (rating : List Row) (sel : List ℕ) :
    Except Err (List Row × List Row) :=
  let n := (ratedIdx rating).length
  if n - n_test n = 0 then Except.error Err.emptyTrainSplit
  else
    Except.ok (maskFrom sel 0 rating, sel.filterMap (fun i => rating.get? i))

/-! ### Basic lemmas about the split -/

/-! ## The fitted model (`fit`, lines 101-104; `predict`, lines 106-107)

`fit` trains `surprise.SVD(random_state=0)` on the rated train rows
(`Reader(rating_scale=(0, 1))`).  The learned state of a biased SVD
model is its global mean and, for each user/item seen during fit, a
bias and a latent factor vector; the concrete values produced by the
SGD loop are left abstract.  `predict(u, i).est` follows surprise's
`SVD.estimate` followed by `AlgoBase.predict`'s clipping to the rating
scale `(0, 1)`:

```python
est = self.trainset.global_mean
if known_user: est += self.bu[u]
if known_item: est += self.bi[i]
if known_user and known_item: est += np.dot(self.qi[i], self.pu[u])
est = min(1, est); est = max(0, est)
```
-/

/-- The state of a fitted surprise `SVD` model: the train global mean,
and for each known user (item) its bias `bu` (`bi`) and factor vector
`pu` (`qi`); `none` for users/items unseen during fit. -/
structure SVDModel where
  globalMean : ℚ
  userParams : ℕ → Option (ℚ × List ℚ)
  itemParams : ℕ → Option (ℚ × List ℚ)

/-- `np.dot` on factor vectors. -/
def dot (xs ys : List ℚ) : ℚ :=
  ((xs.zip ys).map (fun p => p.1 * p.2)).sum

/-- surprise `SVD.estimate` (biased): global mean, plus the user bias
when the user is known, plus the item bias when the item is known, plus
the factor inner product when both are known. -/
def estimate (M : SVDModel) (u i : ℕ) : ℚ :=
  M.globalMean
    + (match M.userParams u with | some p => p.1 | none => 0)
    + (match M.itemParams i with | some p => p.1 | none => 0)
    + (match M.userParams u, M.itemParams i with
       | some pu, some qi => dot qi.2 pu.2
       | _, _ => 0)

/-- `AlgoBase.predict`'s clipping to the `Reader` rating scale `(0, 1)`. -/
def clip01 (q : ℚ) : ℚ := max 0 (min 1 q)

/-- `SVDRecommendationModel.predict(subsr_id, program_id)`: the clipped
estimate `.est` of the surprise model. -/
def predict (M : SVDModel) (u i : ℕ) : ℚ := clip01 (estimate M u i)

/-! ## The score matrix (`score_matrix`, lines 88-90)

`train.pivot(columns='program_id', index='subsr_id', values='use_tms_ratio')`:
the row index is the ascending list of distinct `subsr_id` values of
`train`, the column index the ascending list of distinct `program_id`
values, and the `(u, i)` cell holds the `use_tms_ratio` of the (unique)
`train` row for that pair, `NaN` when the pair is absent or its rating
is missing.  (pandas `pivot` raises on duplicate pairs; the pipeline's
`rating` table is deduplicated upstream by `drop_duplicates`, so the
cell is read here from the first matching row.) -/

/-- Insert into an ascending duplicate-free list of naturals, skipping
an element already present. -/
def insortNat (x : ℕ) : List ℕ → List ℕ
  | [] => [x]
  | y :: ys =>
    if x < y then x :: y :: ys
    else if x = y then y :: ys
    else y :: insortNat x ys

/-- The ascending list of distinct values of `l` (a pandas axis index). -/
def sortedUnique (l : List ℕ) : List ℕ := l.foldr insortNat []

/-- The pivoted score matrix: its row index (`users`), column index
(`items`), and cell contents (`entry`). -/
structure ScoreMatrix where
  users : List ℕ
  items : List ℕ
  entry : ℕ → ℕ → Option ℚ

/-- `SVDRecommendationModel.score_matrix(train)` (lines 88-90). -/
def score_matrix (train : List Row) : ScoreMatrix where
  users := sortedUnique (train.map Row.subsr)
  items := sortedUnique (train.map Row.prog)
  entry := fun u i =>
    (train.find? (fun r => (r.subsr == u) && (r.prog == i))).bind Row.ratio

/-! ## `recommend` (lines 109-115)

```python
user_rated = self.score_matrix.loc[subsr_id].dropna().index.tolist()
user_unrated = self.score_matrix.loc[subsr_id].drop(user_rated).index.tolist()
predictions = [self.predict(subsr_id, program_id) for program_id in user_unrated]
result = pd.DataFrame({'program_id': user_unrated, 'pred_rating': predictions})
top_N = result.sort_values(by='pred_rating', ascending=False)[:N]
```

`.loc[subsr_id]` raises `KeyError` when `subsr_id` is not a row label
of the matrix.  `sort_values(..., ascending=False)` goes through
pandas' `nargsort`, which reverses the column (and the row index)
*before* the stable ascending argsort and reverses the resulting
indexer *after* — the standard construction of a stable *descending*
sort.  The double reversal cancels on equal keys, so rows with equal
scores keep their original relative order, which here is ascending
`program_id` (the pivot's sorted column index).  The stable ascending
argsort is embedded as an insertion sort. -/

/-- One step of the stable ascending insertion sort on
`(program_id, pred_rating)` pairs: `x` goes after every element whose
score is `≤ x`'s. -/
def insertAsc (x : ℕ × ℚ) : List (ℕ × ℚ) → List (ℕ × ℚ)
  | [] => [x]
  | y :: ys => if x.2 < y.2 then x :: y :: ys else y :: insertAsc x ys

/-- Stable ascending sort by score (NumPy's argsort of the
`pred_rating` column applied to the rows). -/
def argsortAsc (l : List (ℕ × ℚ)) : List (ℕ × ℚ) :=
  l.foldl (fun acc x => insertAsc x acc) []

/-- pandas `sort_values(by='pred_rating', ascending=False)`: `nargsort`
reverses the rows, stably argsorts them ascending by score, and
reverses the result — a stable descending sort, so equal scores keep
their original relative order. -/
def sort_values_desc (l : List (ℕ × ℚ)) : List (ℕ × ℚ) :=
  (argsortAsc l.reverse).reverse

/-- The body of `recommend` once the `.loc[subsr_id]` row lookup has
succeeded: the top-`N` rows of the sorted prediction table, as
`(program_id, pred_rating)` pairs. -/
def recommend_topN (m : ScoreMatrix) (M : SVDModel) (subsr_id : ℕ) (N : ℕ) :
    List (ℕ × ℚ) :=
  let user_rated := m.items.filter (fun i => (m.entry subsr_id i).isSome)
  let user_unrated := m.items.filter (fun i => !(user_rated.contains i))
  let predictions := user_unrated.map (fun i => (i, predict M subsr_id i))
  (sort_values_desc predictions).take N

/-- `SVDRecommendationModel.recommend(subsr_id, N)` (lines 109-115):
`.loc[subsr_id]` raises `KeyError` when `subsr_id` is not a row label;
otherwise the sorted top-`N` prediction table is returned. -/
def recommend (m : ScoreMatrix) (M : SVDModel) (subsr_id : ℕ) (N : ℕ) :
    Except Err (List (ℕ × ℚ)) :=
  if subsr_id ∈ m.users then Except.ok (recommend_topN m M subsr_id N)
  else Except.error Err.keyError

/-- The candidate set of the specification: the items of the rating
matrix for which the user has no existing rating.  (Stated from the
spec's words, to be compared with `recommend_topN`'s `user_unrated`.) -/
def candidate_items (m : ScoreMatrix) (u : ℕ) : List ℕ :=
  m.items.filter (fun i => (m.entry u i).isNone)

/-- `precision_recall_at_k(target, prediction)` (lines 117-122):
`num_hit = len(set(prediction).intersection(set(target)))`, then
`num_hit / len(prediction)` (`0.0` when `prediction` is empty) and
`num_hit / len(target)` (`0.0` when `target` is empty).  The
cardinality of the set intersection is the number of distinct elements
of `prediction` that occur in `target`. -/
def precision_recall_at_k (target prediction : List ℕ) : ℚ × ℚ :=
  let num_hit := ((prediction.dedup).filter (fun x => target.contains x)).length
  (if 0 < prediction.length then (num_hit : ℚ) / prediction.length else 0,
   if 0 < target.length then (num_hit : ℚ) / target.length else 0)

/-- `SVDRecommendationModel.evaluate(test_data, N)` (lines 124-135):
for each distinct `subsr_id` of `test_data`, compare the user's test
`program_id`s against `recommend(user, N)['program_id']`, then take
`np.mean` of the per-user precisions and recalls.  `List.dedup` lists
the same distinct users as pandas `.unique()` (order differs, which the
mean ignores).  A `KeyError` from `recommend` propagates; `np.mean` of
an empty list is `NaN`, modelled as `Err.nanEmptyMean`. -/
def evaluate (m : ScoreMatrix) (M : SVDModel) (test_data : List Row) (N : ℕ) :
    Except Err (ℚ × ℚ) :=
  let users := (test_data.map Row.subsr).dedup
  match users.mapM (fun u =>
      (recommend m M u N).map (fun topN =>
        precision_recall_at_k
          ((test_data.filter (fun r => r.subsr == u)).map Row.prog)
          (topN.map Prod.fst))) with
  | Except.error e => Except.error e
  | Except.ok prs =>
    if prs.length = 0 then Except.error Err.nanEmptyMean
    else
      Except.ok
        ((prs.map Prod.fst).sum / (prs.length : ℚ),
         (prs.map Prod.snd).sum / (prs.length : ℚ))

/-- `dataset` (lines 92-99), test side:
`Dataset.load_from_df(test, reader).build_full_trainset().build_testset()`
is the list of `(subsr_id, program_id, use_tms_ratio)` triples of the
test dataframe's rated rows. -/
def build_testset (df : List Row) : List (ℕ × ℕ × ℚ) :=
  df.filterMap (fun r => r.ratio.map (fun q => (r.subsr, r.prog, q)))

/-- `calculate_rmse` (lines 137-141) up to the final square root:
`self.model.test(self.test_data)` predicts every test triple, and
`accuracy.rmse` raises `ValueError` on an empty prediction list and
otherwise returns `sqrt(mean((true - est)**2))`.  This embedding
returns the mean of the squared errors — the exact radicand of the
source's result — so the value stays in `ℚ`; the error/success
behaviour is identical, since the square root is applied after the
emptiness check. -/
def calculate_rmse_sq (M : SVDModel) (test_data : List (ℕ × ℕ × ℚ)) :
    Except Err ℚ :=
  let predictions := test_data.map (fun t => (t.2.2, predict M t.1 t.2.1))
  if predictions.length = 0 then Except.error Err.emptyPredictions
  else
    Except.ok
      (((predictions.map (fun p => (p.1 - p.2) ^ 2)).sum) /
        (predictions.length : ℚ))

/-! ## Concrete instances used by counterexamples and witnesses -/

/-- A small train table: user 0 has rated item 3; user 5 has rated
items 1 and 2.  Its pivot has row index `[0, 5]` and column index
`[1, 2, 3]`; user 0's candidate items are `1` and `2`. -/
def cexTrain : List Row :=
  [⟨0, 3, some 1⟩, ⟨5, 1, some 1⟩, ⟨5, 2, some 1⟩]

/-- A fitted model that saw no user and no item: every prediction is
the clipped global mean `1/2`. -/
def cexM : SVDModel := ⟨1/2, fun _ => none, fun _ => none⟩

/-- A fitted model whose training data contained item `0` (with bias
`1/4`) but not user `9`. -/
def cexItemM : SVDModel :=
  ⟨1/2, fun _ => none, fun i => if i = 0 then some (1/4, []) else none⟩

/-- A fitted model knowing user `0` (bias `1/8`, factors `[1, 2]`) and
item `0` (bias `1/4`, factors `[1/2, 1]`). -/
def wM : SVDModel :=
  ⟨1/2, fun u => if u = 0 then some (1/8, [1, 2]) else none,
        fun i => if i = 0 then some (1/4, [1/2, 1]) else none⟩

/-!
# Theorems

First the supporting lemmas about the embedded operations, then one
theorem (plus witness or counterexample) per specification claim.
-/

/-! ## The split generator -/

theorem mem_ratedIdx {rating : List Row} {i : ℕ} :
    i ∈ ratedIdx rating ↔ ((rating.get? i).bind Row.ratio).isSome := by
  constructor
  · intro h
    exact (List.mem_filter.mp h).2
  · intro h
    refine List.mem_filter.mpr ⟨List.mem_range.mpr ?_, h⟩
    cases hg : rating.get? i with
    | none => rw [hg] at h; simp [Option.bind] at h
    | some r => exact (List.get?_eq_some.mp hg).1

theorem maskFrom_get? (sel : List ℕ) :
    ∀ (rating : List Row) (i k : ℕ),
      (maskFrom sel i rating).get? k =
        (rating.get? k).map (fun r => if (i + k) ∈ sel then maskRow r else r) := by
  intro rating
  induction rating with
  | nil => intro i k; simp [maskFrom]
  | cons r rs ih =>
    intro i k
    cases k with
    | zero => simp [maskFrom]
    | succ k =>
      have h := ih (i + 1) k
      simp only [maskFrom, List.get?]
      rw [h]
      have : i + 1 + k = i + (k + 1) := by omega
      rw [this]

theorem maskFrom_length (sel : List ℕ) :
    ∀ (rating : List Row) (i : ℕ),
      (maskFrom sel i rating).length = rating.length := by
  intro rating
  induction rating with
  | nil => intro i; rfl
  | cons r rs ih => intro i; simp [maskFrom, ih]

theorem n_sub_n_test_eq_zero_iff (n : ℕ) : n - n_test n = 0 ↔ n < 2 := by
  unfold n_test
  omega

theorem maskFrom_nil : ∀ (X : List Row) (i : ℕ), maskFrom [] i X = X := by
  intro X
  induction X with
  | nil => intro i; rfl
  | cons r rs ih => intro i; simp [maskFrom, ih]

theorem maskFrom_single_of_lt :
    ∀ (X : List Row) (i j : ℕ), j < i → maskFrom [j] i X = X := by
  intro X
  induction X with
  | nil => intro i j _; rfl
  | cons r rs ih =>
    intro i j hj
    have h1 : i ∉ [j] := by simp; omega
    have h2 : j < i + 1 := by omega
    simp only [maskFrom, ih (i + 1) j h2]
    rw [if_neg h1]

theorem maskFrom_single_succ :
    ∀ (X : List Row) (i j : ℕ), maskFrom [j + 1] (i + 1) X = maskFrom [j] i X := by
  intro X
  induction X with
  | nil => intro i j; rfl
  | cons r rs ih =>
    intro i j
    have h : (i + 1 ∈ [j + 1]) ↔ (i ∈ [j]) := by simp
    by_cases hij : i ∈ [j]
    · simp [maskFrom, h.mpr hij, hij, ih]
    · simp only [maskFrom, ih]
      rw [if_neg (fun hc => hij (h.mp hc)), if_neg hij]

theorem maskRow_ratio (r : Row) : (maskRow r).ratio = none := rfl

theorem maskRow_maskRow (r : Row) : maskRow (maskRow r) = maskRow r := rfl

theorem maskFrom_cons :
    ∀ (X : List Row) (i j : ℕ) (js : List ℕ),
      maskFrom (j :: js) i X = maskFrom [j] i (maskFrom js i X) := by
  intro X
  induction X with
  | nil => intro i j js; rfl
  | cons r rs ih =>
    intro i j js
    simp only [maskFrom, ih]
    by_cases hj : i = j
    · subst hj
      by_cases hjs : i ∈ js <;>
        simp [maskFrom, hjs, maskRow_maskRow]
    · by_cases hjs : i ∈ js <;>
        simp [maskFrom, hj, hjs]

theorem maskFrom_single_filter_perm :
    ∀ (j : ℕ) (Y : List Row) (r : Row),
      Y.get? j = some r → r.ratio.isSome →
      List.Perm (((maskFrom [j] 0 Y).filter (fun x => x.ratio.isSome)) ++ [r])
        (Y.filter (fun x => x.ratio.isSome)) := by
  intro j
  induction j with
  | zero =>
    intro Y r hg hr
    cases Y with
    | nil => simp at hg
    | cons y ys =>
      have hy : y = r := by simpa using hg
      subst hy
      have h0 : (0 : ℕ) ∈ [0] := by simp
      simp only [maskFrom, h0, if_pos, maskFrom_single_of_lt ys 1 0 (by omega)]
      rw [List.filter_cons_of_neg (by simp [maskRow_ratio]),
        List.filter_cons_of_pos (by simpa using hr)]
      exact List.perm_append_singleton _ _
  | succ j ih =>
    intro Y r hg hr
    cases Y with
    | nil => simp at hg
    | cons y ys =>
      have hys : ys.get? j = some r := by simpa using hg
      have h0 : (0 : ℕ) ∉ [j + 1] := by simp
      simp only [maskFrom, if_neg h0, maskFrom_single_succ ys 0 j]
      by_cases hy : y.ratio.isSome
      · rw [List.filter_cons_of_pos (by simpa using hy),
          List.filter_cons_of_pos (by simpa using hy)]
        exact (ih ys r hys hr).cons y
      · rw [List.filter_cons_of_neg (by simpa using hy),
          List.filter_cons_of_neg (by simpa using hy)]
        exact ih ys r hys hr

theorem maskFrom_filter_perm :
    ∀ (sel : List ℕ) (X : List Row), sel.Nodup →
      (∀ j ∈ sel, ((X.get? j).bind Row.ratio).isSome) →
      List.Perm
        (((maskFrom sel 0 X).filter (fun r => r.ratio.isSome)) ++
          sel.filterMap (fun j => X.get? j))
        (X.filter (fun r => r.ratio.isSome)) := by
  intro sel
  induction sel with
  | nil => intro X _ _; simp [maskFrom_nil]
  | cons j js ih =>
    intro X hnd hall
    have hj := hall j (by simp)
    obtain ⟨r, hr, hrr⟩ : ∃ r, X.get? j = some r ∧ r.ratio.isSome := by
      cases hg : X.get? j with
      | none => rw [hg] at hj; simp [Option.bind] at hj
      | some r => rw [hg] at hj; exact ⟨r, rfl, by simpa using hj⟩
    have hjs : j ∉ js := (List.nodup_cons.mp hnd).1
    have hY : (maskFrom js 0 X).get? j = some r := by
      rw [maskFrom_get? js X 0 j, hr]
      simp [hjs]
    have e1 : ((maskFrom (j :: js) 0 X).filter (fun r => r.ratio.isSome)) ++
          (j :: js).filterMap (fun j => X.get? j)
        = (((maskFrom [j] 0 (maskFrom js 0 X)).filter (fun r => r.ratio.isSome)) ++
            [r]) ++ js.filterMap (fun j => X.get? j) := by
      rw [maskFrom_cons, List.filterMap_cons_some hr, List.append_assoc,
        List.singleton_append]
    rw [e1]
    exact ((maskFrom_single_filter_perm j (maskFrom js 0 X) r hY hrr).append_right
        _).trans
      (ih X (List.nodup_cons.mp hnd).2 (fun k hk => hall k (by simp [hk])))

theorem data_split_eq_ok {rating : List Row} {sel : List ℕ}
    (h2 : 2 ≤ (ratedIdx rating).length) :
    data_split rating sel =
      Except.ok (maskFrom sel 0 rating, sel.filterMap (fun i => rating.get? i)) := by
  unfold data_split
  have h : ¬((ratedIdx rating).length - n_test (ratedIdx rating).length = 0) := by
    rw [n_sub_n_test_eq_zero_iff]; omega
  simp [h]

/-- **C2.** For every Interaction set with at least 2 rated rows and
every duplicate-free selection `sel` of rated row labels (the sample
the seeded shuffle draws), the Split Generator succeeds and: every Test
row carries a non-missing rating; Train is the complete Interaction set
with exactly the Test rows' ratings overwritten to missing (rows at
selected labels are masked, all other rows are returned unchanged), so
no Test row's rating is visible in Train; and Train's rated rows
together with the Test rows reconstruct the original rated Interaction
set exactly (as a permutation). -/
theorem data_split_spec (rating : List Row) (sel : List ℕ)
    (hnd : sel.Nodup) (hsub : ∀ j ∈ sel, j ∈ ratedIdx rating)
    (h2 : 2 ≤ (ratedIdx rating).length) :
    ∃ tr te, data_split rating sel = Except.ok (tr, te) ∧
      (∀ r ∈ te, r.ratio.isSome) ∧
      (∀ j ∈ sel, tr.get? j = (rating.get? j).map maskRow) ∧
      (∀ j, j ∉ sel → tr.get? j = rating.get? j) ∧
      List.Perm ((tr.filter (fun r => r.ratio.isSome)) ++ te)
        (rating.filter (fun r => r.ratio.isSome)) := by
  refine ⟨_, _, data_split_eq_ok h2, ?_, ?_, ?_, ?_⟩
  · intro r hr
    obtain ⟨j, hj, hget⟩ := List.mem_filterMap.mp hr
    have hr2 := mem_ratedIdx.mp (hsub j hj)
    rw [hget] at hr2
    simpa using hr2
  · intro j hj
    rw [maskFrom_get? sel rating 0 j]
    cases rating.get? j with
    | none => rfl
    | some r => simp [hj]
  · intro j hj
    rw [maskFrom_get? sel rating 0 j]
    cases rating.get? j with
    | none => rfl
    | some r => simp [hj]
  · exact maskFrom_filter_perm sel rating hnd
      (fun j hj => mem_ratedIdx.mp (hsub j hj))

/-- Witness for C2: a two-row rated Interaction set with row 1 held
out. -/
theorem data_split_spec_witness :
    ∃ tr te,
      data_split [⟨0, 1, some 1⟩, ⟨1, 2, some (1/2)⟩] [1] =
        Except.ok (tr, te) ∧
      (∀ r ∈ te, r.ratio.isSome) ∧
      (∀ j ∈ [1],
        tr.get? j = (([⟨0, 1, some 1⟩, ⟨1, 2, some (1/2)⟩] : List Row).get? j).map maskRow) ∧
      (∀ j, j ∉ [1] →
        tr.get? j = ([⟨0, 1, some 1⟩, ⟨1, 2, some (1/2)⟩] : List Row).get? j) ∧
      List.Perm ((tr.filter (fun r => r.ratio.isSome)) ++ te)
        (([⟨0, 1, some 1⟩, ⟨1, 2, some (1/2)⟩] : List Row).filter
          (fun r => r.ratio.isSome)) :=
  data_split_spec [⟨0, 1, some 1⟩, ⟨1, 2, some (1/2)⟩] [1]
    (by decide) (by decide) (by decide)

/-- **C9.** For every Interaction set containing fewer than 2
interactions with a non-missing rating, the Split Generator fails (the
`EmptyDatasetError` of the specification; concretely sklearn's
`ValueError` for an empty resulting train set). -/
theorem data_split_insufficient (rating : List Row) (sel : List ℕ)
    (h : (ratedIdx rating).length < 2) :
    data_split rating sel = Except.error Err.emptyTrainSplit := by
  have hc : (ratedIdx rating).length - n_test (ratedIdx rating).length = 0 :=
    (n_sub_n_test_eq_zero_iff _).mpr h
  simp [data_split, hc]

/-- Witness for C9: a single rated interaction. -/
theorem data_split_insufficient_witness :
    data_split [⟨0, 1, some 1⟩] [] = Except.error Err.emptyTrainSplit :=
  data_split_insufficient [⟨0, 1, some 1⟩] [] (by decide)

/-! ## The pivot axes -/

theorem mem_insortNat {a x : ℕ} :
    ∀ {l : List ℕ}, a ∈ insortNat x l ↔ a = x ∨ a ∈ l := by
  intro l
  induction l with
  | nil => simp [insortNat]
  | cons y ys ih =>
    rw [insortNat]
    by_cases h1 : x < y
    · rw [if_pos h1]; simp
    · rw [if_neg h1]
      by_cases h2 : x = y
      · rw [if_pos h2]
        subst h2
        simp only [List.mem_cons]
        tauto
      · rw [if_neg h2]
        simp only [List.mem_cons, ih]
        tauto

theorem pairwise_insortNat {x : ℕ} :
    ∀ {l : List ℕ}, l.Pairwise (· < ·) → (insortNat x l).Pairwise (· < ·) := by
  intro l
  induction l with
  | nil => intro _; simp [insortNat]
  | cons y ys ih =>
    intro hp
    by_cases h1 : x < y
    · rw [insortNat, if_pos h1, List.pairwise_cons]
      refine ⟨?_, hp⟩
      intro z hz
      rcases List.mem_cons.mp hz with hz | hz
      · exact hz ▸ h1
      · exact h1.trans (List.rel_of_pairwise_cons hp hz)
    · by_cases h2 : x = y
      · rw [insortNat, if_neg h1, if_pos h2]; exact hp
      · rw [insortNat, if_neg h1, if_neg h2, List.pairwise_cons]
        refine ⟨?_, ih (List.pairwise_cons.mp hp).2⟩
        intro z hz
        rcases mem_insortNat.mp hz with hz | hz
        · subst hz; omega
        · exact List.rel_of_pairwise_cons hp hz

theorem sortedUnique_pairwise (l : List ℕ) :
    (sortedUnique l).Pairwise (· < ·) := by
  induction l with
  | nil => simp [sortedUnique]
  | cons x xs ih => exact pairwise_insortNat ih

theorem mem_sortedUnique {a : ℕ} :
    ∀ {l : List ℕ}, a ∈ sortedUnique l ↔ a ∈ l := by
  intro l
  induction l with
  | nil => simp [sortedUnique]
  | cons x xs ih =>
    show a ∈ insortNat x (sortedUnique xs) ↔ _
    rw [mem_insortNat, ih, List.mem_cons]

theorem sortedUnique_nodup (l : List ℕ) : (sortedUnique l).Nodup :=
  (sortedUnique_pairwise l).imp Nat.ne_of_lt

theorem mem_score_matrix_users {train : List Row} {u : ℕ} :
    u ∈ (score_matrix train).users ↔ u ∈ train.map Row.subsr :=
  mem_sortedUnique

theorem score_matrix_items_nodup (train : List Row) :
    (score_matrix train).items.Nodup :=
  sortedUnique_nodup _

theorem insertAsc_perm (x : ℕ × ℚ) :
    ∀ (l : List (ℕ × ℚ)), List.Perm (insertAsc x l) (x :: l) := by
  intro l
  induction l with
  | nil => exact List.Perm.refl _
  | cons y ys ih =>
    by_cases h : x.2 < y.2
    · rw [insertAsc, if_pos h]
    · rw [insertAsc, if_neg h]
      exact (ih.cons y).trans (List.Perm.swap x y ys)

theorem foldl_insertAsc_perm :
    ∀ (l acc : List (ℕ × ℚ)),
      List.Perm (l.foldl (fun a x => insertAsc x a) acc) (acc ++ l) := by
  intro l
  induction l with
  | nil => intro acc; simp
  | cons x xs ih =>
    intro acc
    show List.Perm (xs.foldl (fun a x => insertAsc x a) (insertAsc x acc))
      (acc ++ x :: xs)
    exact (ih (insertAsc x acc)).trans
      (((insertAsc_perm x acc).append_right xs).trans List.perm_middle.symm)

theorem argsortAsc_perm (l : List (ℕ × ℚ)) : List.Perm (argsortAsc l) l :=
  foldl_insertAsc_perm l []

theorem sort_values_desc_perm (l : List (ℕ × ℚ)) :
    List.Perm (sort_values_desc l) l :=
  (List.reverse_perm _).trans ((argsortAsc_perm l.reverse).trans (List.reverse_perm l))

theorem user_unrated_eq (m : ScoreMatrix) (u : ℕ) :
    m.items.filter
        (fun i => !((m.items.filter (fun j => (m.entry u j).isSome)).contains i)) =
      candidate_items m u := by
  apply List.filter_congr
  intro i hi
  cases ho : m.entry u i with
  | none =>
    have hnot : i ∉ m.items.filter (fun j => (m.entry u j).isSome) := by
      intro hc
      have h2 := (List.mem_filter.mp hc).2
      rw [ho] at h2
      simp at h2
    simp [hnot, ho]
  | some v =>
    have hmem : i ∈ m.items.filter (fun j => (m.entry u j).isSome) :=
      List.mem_filter.mpr ⟨hi, by rw [ho]; rfl⟩
    simp [hmem, ho]

theorem recommend_topN_eq (m : ScoreMatrix) (M : SVDModel) (u N : ℕ) :
    recommend_topN m M u N =
      (sort_values_desc ((candidate_items m u).map
        (fun i => (i, predict M u i)))).take N := by
  simp only [recommend_topN]
  rw [user_unrated_eq]

theorem mem_candidate_items {m : ScoreMatrix} {u i : ℕ} :
    i ∈ candidate_items m u ↔ i ∈ m.items ∧ m.entry u i = none := by
  rw [candidate_items, List.mem_filter]
  simp

/-- **C1.** For every user known to the rating matrix and every
positive `N`, `recommend(user, N)` succeeds and returns a list that
contains only items drawn from the candidate set (items of the matrix
with no existing rating for that user), never contains an item the user
has already rated (every returned item's matrix entry is `NaN`), and
has length `min N |candidates|`; when `N` is at least the candidate
count the list contains every candidate (paired with its predicted
score) — all candidates, no padding, no error. -/
theorem recommend_spec (m : ScoreMatrix) (M : SVDModel) (u N : ℕ)
    (hu : u ∈ m.users) (_hN : 0 < N) :
    ∃ L, recommend m M u N = Except.ok L ∧
      (∀ p ∈ L, p.1 ∈ candidate_items m u) ∧
      (∀ p ∈ L, m.entry u p.1 = none) ∧
      L.length = min N (candidate_items m u).length ∧
      ((candidate_items m u).length ≤ N →
        ∀ i ∈ candidate_items m u, (i, predict M u i) ∈ L) := by
  have hok : recommend m M u N = Except.ok (recommend_topN m M u N) := by
    rw [recommend, if_pos hu]
  have hperm : List.Perm
      (sort_values_desc ((candidate_items m u).map (fun i => (i, predict M u i))))
      ((candidate_items m u).map (fun i => (i, predict M u i))) :=
    sort_values_desc_perm _
  have hmem : ∀ p ∈ recommend_topN m M u N, p.1 ∈ candidate_items m u := by
    intro p hp
    rw [recommend_topN_eq] at hp
    have hp2 := hperm.mem_iff.mp (List.mem_of_mem_take hp)
    obtain ⟨i, hi, he⟩ := List.mem_map.mp hp2
    rw [← he]
    exact hi
  refine ⟨recommend_topN m M u N, hok, hmem, ?_, ?_, ?_⟩
  · intro p hp
    exact (mem_candidate_items.mp (hmem p hp)).2
  · rw [recommend_topN_eq, List.length_take, hperm.length_eq, List.length_map]
  · intro hle i hi
    rw [recommend_topN_eq,
      List.take_of_length_le (by rw [hperm.length_eq, List.length_map]; exact hle)]
    exact hperm.symm.mem_iff.mp (List.mem_map.mpr ⟨i, hi, rfl⟩)

/-- Witness for C1: user 0 of the small train table, `N = 2`; the
candidates are items 1 and 2. -/
theorem recommend_spec_witness :
    ∃ L, recommend (score_matrix cexTrain) cexM 0 2 = Except.ok L ∧
      (∀ p ∈ L, p.1 ∈ candidate_items (score_matrix cexTrain) 0) ∧
      (∀ p ∈ L, (score_matrix cexTrain).entry 0 p.1 = none) ∧
      L.length = min 2 (candidate_items (score_matrix cexTrain) 0).length ∧
      ((candidate_items (score_matrix cexTrain) 0).length ≤ 2 →
        ∀ i ∈ candidate_items (score_matrix cexTrain) 0,
          (i, predict cexM 0 i) ∈ L) :=
  recommend_spec (score_matrix cexTrain) cexM 0 2 (by decide) (by decide)

/-- **C8 (amended).** For every user unknown to the rating matrix,
`recommend` fails with pandas' `KeyError` (raised by
`self.score_matrix.loc[subsr_id]`); it does not fall back to an empty
rated set. -/
theorem recommend_unknown_user (m : ScoreMatrix) (M : SVDModel) (u N : ℕ)
    (hu : u ∉ m.users) :
    recommend m M u N = Except.error Err.keyError := by
  rw [recommend, if_neg hu]

/-- Witness for C8 (amended): user 9 is not a row of the matrix. -/
theorem recommend_unknown_user_witness :
    recommend (score_matrix cexTrain) cexM 9 10 = Except.error Err.keyError :=
  recommend_unknown_user (score_matrix cexTrain) cexM 9 10 (by decide)

/-- **C8, counterexample.** User 7 is unknown to the rating matrix,
and `recommend(7, 3)` raises `KeyError` instead of returning a
recommendation list over the full item universe. -/
theorem recommend_unknown_user_cex :
    7 ∉ (score_matrix cexTrain).users ∧
    recommend (score_matrix cexTrain) cexM 7 3 = Except.error Err.keyError ∧
    ∀ L, recommend (score_matrix cexTrain) cexM 7 3 ≠ Except.ok L := by
  refine ⟨by decide, rfl, ?_⟩
  intro L h
  rw [show recommend (score_matrix cexTrain) cexM 7 3 =
      Except.error Err.keyError from rfl] at h
  exact Except.noConfusion h

/-! ## `predict` -/

/-- **C3, counterexample.** Item 0 was seen during fit (bias `1/4`) but
user 9 was not; `predict(9, 0)` returns `3/4`, not the global mean
`1/2`.  surprise's biased `SVD.estimate` still adds the known item's
bias for an unknown user, so the bare-global-mean fallback the claim
states for "every user or item unseen" does not hold. -/
theorem predict_cold_start_cex :
    cexItemM.userParams 9 = none ∧
    cexItemM.globalMean = 1/2 ∧
    predict cexItemM 9 0 = 3/4 ∧
    predict cexItemM 9 0 ≠ cexItemM.globalMean := by
  refine ⟨rfl, rfl, ?_, ?_⟩
  · norm_num [predict, estimate, clip01, cexItemM, dot]
  · norm_num [predict, estimate, clip01, cexItemM, dot]

/-- **C3 (amended).** `predict(user, item)` returns the estimate
clipped to the rating range `[0, 1]`, where the estimate is the global
mean plus the user bias when the user was seen during fit, plus the
item bias when the item was seen, plus the factor inner product when
both were seen: for a known pair this is the claimed
`global + bu + bi + dot(qi, pu)` formula; for a pair with *both* sides
unseen, the prediction is the clipped global mean (cold start, no
error); when exactly one side is unseen, the seen side's bias is still
added, so the result is `clip01(global + bias)`, not the bare global
mean. -/
theorem predict_spec (M : SVDModel) (u i : ℕ) :
    (∀ bu pu bi qi, M.userParams u = some (bu, pu) →
        M.itemParams i = some (bi, qi) →
        predict M u i = clip01 (M.globalMean + bu + bi + dot qi pu)) ∧
    (M.userParams u = none → M.itemParams i = none →
        predict M u i = clip01 M.globalMean) ∧
    (∀ bu pu, M.userParams u = some (bu, pu) → M.itemParams i = none →
        predict M u i = clip01 (M.globalMean + bu)) ∧
    (∀ bi qi, M.userParams u = none → M.itemParams i = some (bi, qi) →
        predict M u i = clip01 (M.globalMean + bi)) := by
  refine ⟨?_, ?_, ?_, ?_⟩
  · intro bu pu bi qi h1 h2
    simp [predict, estimate, h1, h2]
  · intro h1 h2
    simp [predict, estimate, h1, h2]
  · intro bu pu h1 h2
    simp [predict, estimate, h1, h2]
  · intro bi qi h1 h2
    simp [predict, estimate, h1, h2]

/-- Witness for C3 (amended): the known pair `(0, 0)` of `wM` follows
the full formula; the unseen pair `(9, 9)` falls back to the clipped
global mean. -/
theorem predict_spec_witness :
    predict wM 0 0 = clip01 (wM.globalMean + 1/8 + 1/4 + dot [1/2, 1] [1, 2]) ∧
    predict wM 9 9 = clip01 wM.globalMean :=
  ⟨(predict_spec wM 0 0).1 (1/8) [1, 2] (1/4) [1/2, 1] rfl rfl,
   (predict_spec wM 9 9).2.1 rfl rfl⟩

/-! ## The extractor's ratio division -/

/-- **C6 (code bug).** A watch-event row with `disp_rtm_sec = 0` that
contributes to the ratio computation yields `+Infinity` (or `NaN` when
`use_tms` is also `0`): the extractor divides without any guard and
never fails, in contrast to the `InvalidRuntime` failure the
specification requires for a display runtime `≤ 0`. -/
theorem ratio_zero_runtime_bug :
    use_tms_ratio_col [⟨1, 2, 100, 0, 0⟩] = [FVal.posInf] ∧
    use_tms_ratio_col [⟨1, 2, 0, 0, 0⟩] = [FVal.nan] := by
  constructor <;> norm_num [use_tms_ratio_col, fdiv]

/-! ## `calculate_rmse` -/

theorem build_testset_of_rated :
    ∀ {test : List Row}, (∀ r ∈ test, r.ratio.isSome) →
      build_testset test =
        test.map (fun r => (r.subsr, r.prog, r.ratio.getD 0)) := by
  intro test
  induction test with
  | nil => intro _; rfl
  | cons r rs ih =>
    intro h
    have hr := h r (List.mem_cons_self r rs)
    cases hq : r.ratio with
    | none => rw [hq] at hr; simp at hr
    | some q =>
      have ht : build_testset (r :: rs) =
          (r.subsr, r.prog, q) :: build_testset rs := by
        simp only [build_testset, List.filterMap_cons, hq, Option.map_some']
      rw [ht, ih (fun x hx => h x (List.mem_cons_of_mem r hx))]
      simp [hq]

/-- **C7.** When the Test set is empty, `calculate_rmse` fails (the
spec's `EmptyTestSetError`; concretely surprise `accuracy.rmse` raises
`ValueError` on the empty prediction list); for a non-empty Test set of
rated rows it returns the single scalar whose square root is the RMSE:
the mean over the Test set of the squared differences between the true
rating and the model's prediction. -/
theorem calculate_rmse_spec (M : SVDModel) (test : List Row) :
    (test = [] → calculate_rmse_sq M (build_testset test) =
        Except.error Err.emptyPredictions) ∧
    (test ≠ [] → (∀ r ∈ test, r.ratio.isSome) →
      calculate_rmse_sq M (build_testset test) =
        Except.ok
          ((test.map (fun r =>
              ((r.ratio.getD 0) - predict M r.subsr r.prog) ^ 2)).sum /
            (test.length : ℚ))) := by
  constructor
  · intro h
    subst h
    rfl
  · intro hne hall
    rw [build_testset_of_rated hall]
    simp only [calculate_rmse_sq, List.map_map, List.length_map]
    rw [if_neg (by
      simp only [List.length_eq_zero]
      exact hne)]
    rfl

/-- Witness for C7: a one-row rated Test set. -/
theorem calculate_rmse_spec_witness :
    calculate_rmse_sq cexM (build_testset [⟨0, 1, some 1⟩]) =
      Except.ok (((([⟨0, 1, some 1⟩] : List Row)).map (fun r =>
          ((r.ratio.getD 0) - predict cexM r.subsr r.prog) ^ 2)).sum /
        ((([⟨0, 1, some 1⟩] : List Row)).length : ℚ)) :=
  (calculate_rmse_spec cexM [⟨0, 1, some 1⟩]).2 (by simp) (by decide)

/-! ## Test users are rows of the pivoted matrix -/

/-- **C10.** Every subscriber of the Test set returned by the split is
a row label of the rating matrix pivoted from Train (Train keeps every
interaction row, only ratings are masked), so the per-user `recommend`
lookup inside `evaluate` succeeds for every Test user and never hits
the unknown-user `KeyError` path. -/
theorem test_users_in_matrix (rating : List Row) (sel : List ℕ)
    (M : SVDModel) (N : ℕ) (tr te : List Row)
    (hok : data_split rating sel = Except.ok (tr, te)) :
    ∀ r ∈ te, r.subsr ∈ (score_matrix tr).users ∧
      ∃ L, recommend (score_matrix tr) M r.subsr N = Except.ok L := by
  simp only [data_split] at hok
  by_cases hc : (ratedIdx rating).length - n_test (ratedIdx rating).length = 0
  · rw [if_pos hc] at hok
    exact absurd hok (by simp)
  · rw [if_neg hc] at hok
    injection hok with hok
    injection hok with htr hte
    subst htr
    subst hte
    intro r hr
    obtain ⟨j, hj, hget⟩ := List.mem_filterMap.mp hr
    have htr : (maskFrom sel 0 rating).get? j = some (maskRow r) := by
      rw [maskFrom_get? sel rating 0 j, hget]
      simp [hj]
    have hmem : maskRow r ∈ maskFrom sel 0 rating := List.get?_mem htr
    have husr : r.subsr ∈ (score_matrix (maskFrom sel 0 rating)).users :=
      mem_score_matrix_users.mpr
        (List.mem_map.mpr ⟨maskRow r, hmem, rfl⟩)
    exact ⟨husr, recommend_topN (score_matrix (maskFrom sel 0 rating)) M r.subsr N,
      by rw [recommend, if_pos husr]⟩

/-- Witness for C10: the two-row rated table split with row 1 held
out; its single test row's subscriber is user 1. -/
theorem test_users_in_matrix_witness :
    (⟨1, 2, some (1/2)⟩ : Row).subsr ∈
      (score_matrix [⟨0, 1, some 1⟩, ⟨1, 2, none⟩]).users ∧
    ∃ L, recommend (score_matrix [⟨0, 1, some 1⟩, ⟨1, 2, none⟩]) cexM
      (⟨1, 2, some (1/2)⟩ : Row).subsr 10 = Except.ok L :=
  test_users_in_matrix [⟨0, 1, some 1⟩, ⟨1, 2, some (1/2)⟩] [1] cexM 10
    [⟨0, 1, some 1⟩, ⟨1, 2, none⟩] [⟨1, 2, some (1/2)⟩] rfl
    ⟨1, 2, some (1/2)⟩ (List.mem_cons_self _ _)

/-! ## The evaluator -/

theorem list_sum_nonneg : ∀ (l : List ℚ), (∀ x ∈ l, 0 ≤ x) → 0 ≤ l.sum := by
  intro l
  induction l with
  | nil => intro _; simp
  | cons x xs ih =>
    intro h
    rw [List.sum_cons]
    have hx := h x (List.mem_cons_self x xs)
    have hs := ih (fun y hy => h y (List.mem_cons_of_mem x hy))
    linarith

theorem list_sum_le_length :
    ∀ (l : List ℚ), (∀ x ∈ l, x ≤ 1) → l.sum ≤ (l.length : ℚ) := by
  intro l
  induction l with
  | nil => intro _; simp
  | cons x xs ih =>
    intro h
    rw [List.sum_cons, List.length_cons]
    have hx := h x (List.mem_cons_self x xs)
    have hs := ih (fun y hy => h y (List.mem_cons_of_mem x hy))
    push_cast
    linarith

theorem list_sum_eq_zero : ∀ (l : List ℚ), (∀ x ∈ l, x = 0) → l.sum = 0 := by
  intro l
  induction l with
  | nil => intro _; simp
  | cons x xs ih =>
    intro h
    rw [List.sum_cons, h x (List.mem_cons_self x xs),
      ih (fun y hy => h y (List.mem_cons_of_mem x hy))]
    simp

theorem list_sum_eq_length :
    ∀ (l : List ℚ), (∀ x ∈ l, x = 1) → l.sum = (l.length : ℚ) := by
  intro l
  induction l with
  | nil => intro _; simp
  | cons x xs ih =>
    intro h
    rw [List.sum_cons, List.length_cons, h x (List.mem_cons_self x xs),
      ih (fun y hy => h y (List.mem_cons_of_mem x hy))]
    push_cast
    ring

theorem precision_recall_bounds (target prediction : List ℕ) :
    0 ≤ (precision_recall_at_k target prediction).1 ∧
    (precision_recall_at_k target prediction).1 ≤ 1 ∧
    0 ≤ (precision_recall_at_k target prediction).2 ∧
    (precision_recall_at_k target prediction).2 ≤ 1 := by
  have hnum1 : ((prediction.dedup).filter (fun x => target.contains x)).length ≤
      prediction.length :=
    le_trans (List.length_filter_le _ _)
      (List.Sublist.length_le (List.dedup_sublist _))
  have hnum2 : ((prediction.dedup).filter (fun x => target.contains x)).length ≤
      target.length := by
    have hnd : ((prediction.dedup).filter (fun x => target.contains x)).Nodup :=
      (List.nodup_dedup _).filter _
    have hsub : ((prediction.dedup).filter (fun x => target.contains x)) ⊆
        target := by
      intro x hx
      have h2 := (List.mem_filter.mp hx).2
      simpa using h2
    exact (List.subperm_of_subset hnd hsub).length_le
  simp only [precision_recall_at_k]
  refine ⟨?_, ?_, ?_, ?_⟩
  · split
    · positivity
    · exact le_refl 0
  · split
    next h =>
      rw [div_le_one (by exact_mod_cast h)]
      exact_mod_cast hnum1
    next h => exact zero_le_one
  · split
    · positivity
    · exact le_refl 0
  · split
    next h =>
      rw [div_le_one (by exact_mod_cast h)]
      exact_mod_cast hnum2
    next h => exact zero_le_one

theorem precision_recall_disjoint {target prediction : List ℕ}
    (h : ∀ x ∈ prediction, x ∉ target) :
    precision_recall_at_k target prediction = (0, 0) := by
  have hnil : (prediction.dedup).filter (fun x => target.contains x) = [] := by
    rw [List.filter_eq_nil_iff]
    intro a ha
    have ham : a ∈ prediction := List.mem_dedup.mp ha
    simpa using h a ham
  simp only [precision_recall_at_k, hnil, List.length_nil, Nat.cast_zero]
  rw [Prod.mk.injEq]
  constructor <;> (split <;> simp)

theorem precision_recall_equal {target prediction : List ℕ}
    (heq : prediction = target) (hnd : prediction.Nodup)
    (hne : prediction ≠ []) :
    precision_recall_at_k target prediction = (1, 1) := by
  subst heq
  have hded : prediction.dedup = prediction := List.dedup_eq_self.mpr hnd
  have hfil : prediction.filter (fun x => prediction.contains x) = prediction := by
    rw [List.filter_eq_self]
    intro a ha
    simpa using ha
  have hlen : 0 < prediction.length := List.length_pos.mpr hne
  have hcast : (prediction.length : ℚ) ≠ 0 := by
    exact_mod_cast Nat.pos_iff_ne_zero.mp hlen
  simp only [precision_recall_at_k, hded, hfil, if_pos hlen]
  rw [div_self hcast]

theorem recommend_topN_fst_nodup (train : List Row) (M : SVDModel) (u N : ℕ) :
    ((recommend_topN (score_matrix train) M u N).map Prod.fst).Nodup := by
  rw [recommend_topN_eq]
  have hcnd : (candidate_items (score_matrix train) u).Nodup :=
    (score_matrix_items_nodup train).filter _
  have hperm : List.Perm
      ((sort_values_desc ((candidate_items (score_matrix train) u).map
        (fun i => (i, predict M u i)))).map Prod.fst)
      (((candidate_items (score_matrix train) u).map
        (fun i => (i, predict M u i))).map Prod.fst) :=
    (sort_values_desc_perm _).map Prod.fst
  have heq : (((candidate_items (score_matrix train) u).map
      (fun i => (i, predict M u i))).map Prod.fst) =
      candidate_items (score_matrix train) u := by
    rw [List.map_map]
    exact List.map_id _
  have hs : (((sort_values_desc ((candidate_items (score_matrix train) u).map
        (fun i => (i, predict M u i)))).take N).map Prod.fst).Sublist
      ((sort_values_desc ((candidate_items (score_matrix train) u).map
        (fun i => (i, predict M u i)))).map Prod.fst) :=
    (List.take_sublist N _).map Prod.fst
  exact List.Nodup.sublist hs (hperm.nodup_iff.mpr (by rw [heq]; exact hcnd))

theorem targets_ne_nil {test : List Row} {u : ℕ}
    (hu : u ∈ (test.map Row.subsr).dedup) :
    (test.filter (fun r => r.subsr == u)).map Row.prog ≠ [] := by
  have hu2 : u ∈ test.map Row.subsr := List.mem_dedup.mp hu
  obtain ⟨r, hr, hru⟩ := List.mem_map.mp hu2
  have hrf : r ∈ test.filter (fun r => r.subsr == u) :=
    List.mem_filter.mpr ⟨hr, by simp [hru]⟩
  intro hnil
  rw [List.map_eq_nil_iff] at hnil
  rw [hnil] at hrf
  exact absurd hrf (List.not_mem_nil r)

theorem mapM_recommend_ok (m : ScoreMatrix) (M : SVDModel) (test : List Row)
    (N : ℕ) :
    ∀ (us : List ℕ), (∀ u ∈ us, u ∈ m.users) →
      us.mapM (fun u => (recommend m M u N).map (fun topN =>
          precision_recall_at_k
            ((test.filter (fun r => r.subsr == u)).map Row.prog)
            (topN.map Prod.fst))) =
        Except.ok (us.map (fun u =>
          precision_recall_at_k
            ((test.filter (fun r => r.subsr == u)).map Row.prog)
            ((recommend_topN m M u N).map Prod.fst))) := by
  intro us
  induction us with
  | nil => intro _; rfl
  | cons u us ih =>
    intro h
    simp only [List.mapM_cons]
    rw [show recommend m M u N = Except.ok (recommend_topN m M u N) from
      by rw [recommend, if_pos (h u (List.mem_cons_self u us))]]
    rw [ih (fun v hv => h v (List.mem_cons_of_mem u hv))]
    rfl

theorem mean_bounds (prs : List (ℚ × ℚ)) (hne : prs ≠ [])
    (hb : ∀ p ∈ prs, 0 ≤ p.1 ∧ p.1 ≤ 1 ∧ 0 ≤ p.2 ∧ p.2 ≤ 1) :
    0 ≤ (prs.map Prod.fst).sum / (prs.length : ℚ) ∧
    (prs.map Prod.fst).sum / (prs.length : ℚ) ≤ 1 ∧
    0 ≤ (prs.map Prod.snd).sum / (prs.length : ℚ) ∧
    (prs.map Prod.snd).sum / (prs.length : ℚ) ≤ 1 := by
  have hlp : 0 < (prs.length : ℚ) := by
    have hp := List.length_pos.mpr hne
    exact_mod_cast hp
  have h1 : 0 ≤ (prs.map Prod.fst).sum := by
    refine list_sum_nonneg _ ?_
    intro x hx
    obtain ⟨p, hp, rfl⟩ := List.mem_map.mp hx
    exact (hb p hp).1
  have h2 : (prs.map Prod.fst).sum ≤ ((prs.map Prod.fst).length : ℚ) := by
    refine list_sum_le_length _ ?_
    intro x hx
    obtain ⟨p, hp, rfl⟩ := List.mem_map.mp hx
    exact (hb p hp).2.1
  have h3 : 0 ≤ (prs.map Prod.snd).sum := by
    refine list_sum_nonneg _ ?_
    intro x hx
    obtain ⟨p, hp, rfl⟩ := List.mem_map.mp hx
    exact (hb p hp).2.2.1
  have h4 : (prs.map Prod.snd).sum ≤ ((prs.map Prod.snd).length : ℚ) := by
    refine list_sum_le_length _ ?_
    intro x hx
    obtain ⟨p, hp, rfl⟩ := List.mem_map.mp hx
    exact (hb p hp).2.2.2
  rw [List.length_map] at h2
  rw [List.length_map] at h4
  exact ⟨div_nonneg h1 (le_of_lt hlp), (div_le_one hlp).mpr h2,
    div_nonneg h3 (le_of_lt hlp), (div_le_one hlp).mpr h4⟩

theorem mean_zero (prs : List (ℚ × ℚ)) (h : ∀ p ∈ prs, p = (0, 0)) :
    (prs.map Prod.fst).sum / (prs.length : ℚ) = 0 ∧
    (prs.map Prod.snd).sum / (prs.length : ℚ) = 0 := by
  have h1 : (prs.map Prod.fst).sum = 0 := by
    refine list_sum_eq_zero _ ?_
    intro x hx
    obtain ⟨p, hp, rfl⟩ := List.mem_map.mp hx
    rw [h p hp]
  have h2 : (prs.map Prod.snd).sum = 0 := by
    refine list_sum_eq_zero _ ?_
    intro x hx
    obtain ⟨p, hp, rfl⟩ := List.mem_map.mp hx
    rw [h p hp]
  rw [h1, h2]
  exact ⟨zero_div _, zero_div _⟩

theorem mean_one (prs : List (ℚ × ℚ)) (hne : prs ≠ [])
    (h : ∀ p ∈ prs, p = (1, 1)) :
    (prs.map Prod.fst).sum / (prs.length : ℚ) = 1 ∧
    (prs.map Prod.snd).sum / (prs.length : ℚ) = 1 := by
  have hlp : (prs.length : ℚ) ≠ 0 := by
    have hp := List.length_pos.mpr hne
    exact_mod_cast Nat.pos_iff_ne_zero.mp hp
  have h1 : (prs.map Prod.fst).sum = ((prs.map Prod.fst).length : ℚ) := by
    refine list_sum_eq_length _ ?_
    intro x hx
    obtain ⟨p, hp, rfl⟩ := List.mem_map.mp hx
    rw [h p hp]
  have h2 : (prs.map Prod.snd).sum = ((prs.map Prod.snd).length : ℚ) := by
    refine list_sum_eq_length _ ?_
    intro x hx
    obtain ⟨p, hp, rfl⟩ := List.mem_map.mp hx
    rw [h p hp]
  rw [List.length_map] at h1
  rw [List.length_map] at h2
  rw [h1, h2]
  exact ⟨div_self hlp, div_self hlp⟩

theorem evaluate_reduce (m : ScoreMatrix) (M : SVDModel) (test : List Row)
    (N : ℕ) (prs : List (ℚ × ℚ))
    (hmm : ((test.map Row.subsr).dedup).mapM (fun u =>
        (recommend m M u N).map (fun topN =>
          precision_recall_at_k
            ((test.filter (fun r => r.subsr == u)).map Row.prog)
            (topN.map Prod.fst))) = Except.ok prs)
    (hlen : ¬prs.length = 0) :
    evaluate m M test N =
      Except.ok ((prs.map Prod.fst).sum / (prs.length : ℚ),
        (prs.map Prod.snd).sum / (prs.length : ℚ)) := by
  simp only [evaluate]
  rw [hmm]
  show (if prs.length = 0 then Except.error Err.nanEmptyMean
    else Except.ok ((prs.map Prod.fst).sum / (prs.length : ℚ),
      (prs.map Prod.snd).sum / (prs.length : ℚ))) = _
  rw [if_neg hlen]

/-- **C4.** For every test table with at least one user, all of whose
users are row labels of the rating matrix, `evaluate` returns the
macro-average over the distinct test users of the per-user precision
(`|targets ∩ predictions| / |predictions|`, `0` for empty predictions)
and recall (`|targets ∩ predictions| / |targets|`, `0` for empty
targets), unweighted by interaction count; both averages lie in
`[0, 1]`; both are `0` when every user's predictions are disjoint from
that user's targets; and both are `1` when every user's prediction list
equals that user's target list. -/
theorem evaluate_spec (train : List Row) (M : SVDModel) (test : List Row)
    (N : ℕ)
    (hne : (test.map Row.subsr).dedup ≠ [])
    (hknown : ∀ u ∈ (test.map Row.subsr).dedup,
      u ∈ (score_matrix train).users) :
    ∃ P R,
      evaluate (score_matrix train) M test N = Except.ok (P, R) ∧
      P = (((test.map Row.subsr).dedup).map (fun u =>
          (precision_recall_at_k
            ((test.filter (fun r => r.subsr == u)).map Row.prog)
            ((recommend_topN (score_matrix train) M u N).map Prod.fst)).1)).sum /
        ((((test.map Row.subsr).dedup)).length : ℚ) ∧
      R = (((test.map Row.subsr).dedup).map (fun u =>
          (precision_recall_at_k
            ((test.filter (fun r => r.subsr == u)).map Row.prog)
            ((recommend_topN (score_matrix train) M u N).map Prod.fst)).2)).sum /
        ((((test.map Row.subsr).dedup)).length : ℚ) ∧
      0 ≤ P ∧ P ≤ 1 ∧ 0 ≤ R ∧ R ≤ 1 ∧
      ((∀ u ∈ (test.map Row.subsr).dedup,
          ∀ i ∈ (recommend_topN (score_matrix train) M u N).map Prod.fst,
            i ∉ (test.filter (fun r => r.subsr == u)).map Row.prog) →
        P = 0 ∧ R = 0) ∧
      ((∀ u ∈ (test.map Row.subsr).dedup,
          (recommend_topN (score_matrix train) M u N).map Prod.fst =
            (test.filter (fun r => r.subsr == u)).map Row.prog) →
        P = 1 ∧ R = 1) := by
  have husers_len : ¬((test.map Row.subsr).dedup).length = 0 := by
    intro h0
    exact hne (List.length_eq_zero.mp h0)
  have hm := mapM_recommend_ok (score_matrix train) M test N
    ((test.map Row.subsr).dedup) hknown
  have hlen2 : ¬(((test.map Row.subsr).dedup).map (fun u =>
      precision_recall_at_k
        ((test.filter (fun r => r.subsr == u)).map Row.prog)
        ((recommend_topN (score_matrix train) M u N).map Prod.fst))).length = 0 := by
    rw [List.length_map]
    exact husers_len
  have hne2 : (((test.map Row.subsr).dedup).map (fun u =>
      precision_recall_at_k
        ((test.filter (fun r => r.subsr == u)).map Row.prog)
        ((recommend_topN (score_matrix train) M u N).map Prod.fst))) ≠ [] := by
    intro h0
    exact husers_len (by rw [← List.length_map
      (f := fun u =>
        precision_recall_at_k
          ((test.filter (fun r => r.subsr == u)).map Row.prog)
          ((recommend_topN (score_matrix train) M u N).map Prod.fst)), h0]; rfl)
  have hb : ∀ p ∈ (((test.map Row.subsr).dedup).map (fun u =>
      precision_recall_at_k
        ((test.filter (fun r => r.subsr == u)).map Row.prog)
        ((recommend_topN (score_matrix train) M u N).map Prod.fst))),
      0 ≤ p.1 ∧ p.1 ≤ 1 ∧ 0 ≤ p.2 ∧ p.2 ≤ 1 := by
    intro p hp
    obtain ⟨u, _, rfl⟩ := List.mem_map.mp hp
    exact precision_recall_bounds _ _
  obtain ⟨hb1, hb2, hb3, hb4⟩ := mean_bounds _ hne2 hb
  refine ⟨_, _, evaluate_reduce (score_matrix train) M test N _ hm hlen2,
    ?_, ?_, hb1, hb2, hb3, hb4, ?_, ?_⟩
  · rw [List.map_map, List.length_map]
    rfl
  · rw [List.map_map, List.length_map]
    rfl
  · intro hd
    exact mean_zero _ (by
      intro p hp
      obtain ⟨u, hu, rfl⟩ := List.mem_map.mp hp
      exact precision_recall_disjoint (hd u hu))
  · intro heq
    exact mean_one _ hne2 (by
      intro p hp
      obtain ⟨u, hu, rfl⟩ := List.mem_map.mp hp
      exact precision_recall_equal (heq u hu)
        (recommend_topN_fst_nodup train M u N)
        (by rw [heq u hu]; exact targets_ne_nil hu))

/-- Witness for C4: a one-row test table whose single user 0 is a row
of the small train table's matrix. -/
theorem evaluate_spec_witness :
    ∃ P R,
      evaluate (score_matrix cexTrain) cexM [⟨0, 1, some (1/2)⟩] 10 =
        Except.ok (P, R) ∧
      P = (((([⟨0, 1, some (1/2)⟩] : List Row).map Row.subsr).dedup).map (fun u =>
          (precision_recall_at_k
            ((([⟨0, 1, some (1/2)⟩] : List Row).filter
              (fun r => r.subsr == u)).map Row.prog)
            ((recommend_topN (score_matrix cexTrain) cexM u 10).map
              Prod.fst)).1)).sum /
        ((((([⟨0, 1, some (1/2)⟩] : List Row).map Row.subsr).dedup)).length : ℚ) ∧
      R = (((([⟨0, 1, some (1/2)⟩] : List Row).map Row.subsr).dedup).map (fun u =>
          (precision_recall_at_k
            ((([⟨0, 1, some (1/2)⟩] : List Row).filter
              (fun r => r.subsr == u)).map Row.prog)
            ((recommend_topN (score_matrix cexTrain) cexM u 10).map
              Prod.fst)).2)).sum /
        ((((([⟨0, 1, some (1/2)⟩] : List Row).map Row.subsr).dedup)).length : ℚ) ∧
      0 ≤ P ∧ P ≤ 1 ∧ 0 ≤ R ∧ R ≤ 1 ∧
      ((∀ u ∈ (([⟨0, 1, some (1/2)⟩] : List Row).map Row.subsr).dedup,
          ∀ i ∈ (recommend_topN (score_matrix cexTrain) cexM u 10).map Prod.fst,
            i ∉ (([⟨0, 1, some (1/2)⟩] : List Row).filter
              (fun r => r.subsr == u)).map Row.prog) →
        P = 0 ∧ R = 0) ∧
      ((∀ u ∈ (([⟨0, 1, some (1/2)⟩] : List Row).map Row.subsr).dedup,
          (recommend_topN (score_matrix cexTrain) cexM u 10).map Prod.fst =
            (([⟨0, 1, some (1/2)⟩] : List Row).filter
              (fun r => r.subsr == u)).map Row.prog) →
        P = 1 ∧ R = 1) :=
  evaluate_spec cexTrain cexM [⟨0, 1, some (1/2)⟩] 10 (by decide) (by decide)

end VodRec
